import Mathlib

/-!
Shallow embedding of the core of the `disadis` download-authorization proxy:
the Hydra rights-evaluation engine (`src/auth/hydra_auth.go`,
`src/disseminator/hydra_auth.go`), the time-bounded ring-buffer cache
(`src/timecache/timecache.go`), and the two seekable-stream abstractions
(`src/stream_seeker.go`, `src/http_seeker.go`).

Conventions of the embedding:
* Go `time.Time` and `time.Duration` are modelled as `Int` nanosecond counts;
  the zero `time.Time` is `0`; `a.Before(b)` is `a < b`, `a.After(b)` is
  `b < a`.  The ambient clock `time.Now()` becomes an explicit `now : Int`
  argument.
* Byte streams are `List Nat`; a ranged fetch of `[start, stop)` from a
  well-behaved server is `List.extract`.
* Go methods that can mutate their receiver are translated to functions
  returning the new state, so "does not mutate" is a provable equation.
* Fallible operations return `Except`/`Option` mirroring Go's `(value, error)`
  returns.
-/

namespace Disadis

/-! ### Membership helpers (src/disseminator/hydra_auth.go lines 74-90) -/

/-- `member(a, list)`: is string `a` a member of string list `list`? -/
def member (a : String) : List String → Bool
  | [] => false
  | x :: rest => if a = x then true else member a rest

/-- `incommon(a, b)`: do lists `a` and `b` contain a member in common? -/
def incommon (a b : List String) : Bool :=
  match a with
  | [] => false
  | x :: rest => if member x b then true else incommon rest b

/-! ### Users and authorization outcomes (src/auth/hydra_auth.go) -/

/-- A `User` is an identifier and a list of groups; the zero `User`
(empty id, no groups) is the anonymous user. -/
structure User where
  Id : String
  Groups : List String
deriving Repr, DecidableEq

/-- The anonymous user: the zero value of `User`. -/
def anonUser : User := ⟨"", []⟩

/-- The possible results from `Check()` (the `Auth*` constants). -/
inductive Authorization where
  | AuthDeny
  | AuthAllow
  | AuthNotFound
  | AuthError
deriving Repr, DecidableEq

export Authorization (AuthDeny AuthAllow AuthNotFound AuthError)

/-- `hydraRights`: the rights associated to a given hydra object
(src/auth/hydra_auth.go lines 146-153). -/
structure hydraRights where
  readGroups : List String
  readPeople : List String
  editGroups : List String
  editPeople : List String
  embargo : Int
  version : String
deriving Repr, DecidableEq

/-- `canView` (src/auth/hydra_auth.go lines 175-205): compare an item's access
rights against a `User` to see if view access should be granted.  The Go code's
`time.Now()` is the explicit argument `now`. -/
def hydraRights.canView (hr : hydraRights) (now : Int) (user : User) : Authorization :=
  if hr.version ≠ "0.1" then AuthError
  else if now < hr.embargo then
    -- only edit people can view
    (if member user.Id hr.editPeople || incommon user.Groups hr.editGroups then
      AuthAllow
    else AuthDeny)
  -- public?
  else if member "public" hr.readGroups || member "public" hr.editGroups then
    AuthAllow
  -- registered?
  else if user.Id ≠ "" &&
      (member "registered" hr.readGroups || member "registered" hr.editGroups) then
    AuthAllow
  else if incommon user.Groups hr.readGroups || incommon user.Groups hr.editGroups then
    AuthAllow
  else if member user.Id hr.readPeople || member user.Id hr.editPeople then
    AuthAllow
  else AuthDeny

/-- `isPublic` (src/auth/hydra_auth.go lines 158-169). -/
def hydraRights.isPublic (hr : hydraRights) (now : Int) : Bool :=
  if hr.version ≠ "0.1" then false
  else if now < hr.embargo then false
  else if member "public" hr.readGroups || member "public" hr.editGroups then true
  else false

/-- `Check` (src/auth/hydra_auth.go lines 122-142), abstracted over its two
collaborators: `rights` is the result of `ha.getRights(id)` (`none` = nil),
and `currentUser` is `none` when `ha.CurrentUser == nil`, otherwise
`some u` where `u` is the user the resolver would return for the request. -/
def Check (rights : Option hydraRights) (currentUser : Option User) (now : Int) :
    Authorization :=
  match rights with
  | none => AuthNotFound
  | some r =>
    -- first try with the anon user to see if item is viewable by the public
    if r.canView now anonUser = AuthAllow then AuthAllow
    else
      match currentUser with
      | none => AuthDeny
      | some u => r.canView now u

/-- The big read-grant disjunction of `canView`'s no-embargo branch. -/
def readGrant (hr : hydraRights) (u : User) : Prop :=
  member "public" hr.readGroups = true ∨ member "public" hr.editGroups = true
  ∨ (u.Id ≠ "" ∧ (member "registered" hr.readGroups = true
        ∨ member "registered" hr.editGroups = true))
  ∨ incommon u.Groups hr.readGroups = true ∨ incommon u.Groups hr.editGroups = true
  ∨ member u.Id hr.readPeople = true ∨ member u.Id hr.editPeople = true

instance (hr : hydraRights) (u : User) : Decidable (readGrant hr u) := by
  unfold readGrant; infer_instance

lemma canView_no_embargo_eq (hr : hydraRights) (u : User) (now : Int)
    (hv : hr.version = "0.1") (he : ¬ now < hr.embargo) :
    hr.canView now u =
      (if readGrant hr u then AuthAllow else AuthDeny) := by
  unfold hydraRights.canView readGrant
  have hv' : ¬ hr.version ≠ "0.1" := by simp [hv]
  rw [if_neg hv', if_neg he]
  by_cases h1 : (member "public" hr.readGroups || member "public" hr.editGroups) = true <;>
    by_cases h2 : (decide (u.Id ≠ "") &&
      (member "registered" hr.readGroups || member "registered" hr.editGroups)) = true <;>
    by_cases h3 : (incommon u.Groups hr.readGroups || incommon u.Groups hr.editGroups) = true <;>
    by_cases h4 : (member u.Id hr.readPeople || member u.Id hr.editPeople) = true <;>
    simp_all [hv, he] <;> (try split) <;> first | rfl | tauto

/-- C1: for a rights record with version "0.1" and no active embargo,
`canView` returns `AuthAllow` iff `"public"` is in `readGroups`/`editGroups`,
or the user id is non-empty and `"registered"` is in `readGroups`/`editGroups`,
or the user's groups intersect `readGroups`/`editGroups`, or the user id is in
`readPeople`/`editPeople` — and returns `AuthDeny` otherwise.  The iff is over
the exact checks of the code, so a user id sitting only in a group list never
matches the people check, `"public"`/`"registered"` are tested only against
group lists, and the edit lists are OR'ed into every read check. -/
theorem C1_canView_no_embargo (hr : hydraRights) (u : User) (now : Int)
    (hv : hr.version = "0.1") (he : ¬ now < hr.embargo) :
    (hr.canView now u = AuthAllow ↔ readGrant hr u)
    ∧ (hr.canView now u = AuthDeny ↔ ¬ readGrant hr u) := by
  rw [canView_no_embargo_eq hr u now hv he]
  by_cases h : readGrant hr u <;> simp [h]

/-- Witness for C1 at a concrete record and user. -/
theorem C1_canView_no_embargo_witness :
    (hydraRights.canView ⟨["apple"], ["dog"], ["igloo"], ["kite"], 0, "0.1"⟩ 5
        ⟨"dog", ["zebra"]⟩ = AuthAllow
      ↔ readGrant ⟨["apple"], ["dog"], ["igloo"], ["kite"], 0, "0.1"⟩ ⟨"dog", ["zebra"]⟩)
    ∧ (hydraRights.canView ⟨["apple"], ["dog"], ["igloo"], ["kite"], 0, "0.1"⟩ 5
        ⟨"dog", ["zebra"]⟩ = AuthDeny
      ↔ ¬ readGrant ⟨["apple"], ["dog"], ["igloo"], ["kite"], 0, "0.1"⟩ ⟨"dog", ["zebra"]⟩) :=
  C1_canView_no_embargo _ _ 5 rfl (by decide)

/-- C2: `canView` first checks the schema version: any version other than
"0.1" yields `AuthError` (never Allow, never Deny); with version "0.1" and an
active embargo (`now < embargo`), the result is `AuthAllow` exactly when the
user id is a member of `editPeople` or the user's groups intersect
`editGroups`, and `AuthDeny` otherwise, independent of the read lists. -/
theorem C2_canView_version_embargo (hr : hydraRights) (u : User) (now : Int) :
    (hr.version ≠ "0.1" → hr.canView now u = AuthError)
    ∧ (hr.version = "0.1" → now < hr.embargo →
        hr.canView now u =
          (if member u.Id hr.editPeople || incommon u.Groups hr.editGroups then
            AuthAllow
          else AuthDeny)) := by
  constructor
  · intro hv
    unfold hydraRights.canView
    rw [if_pos hv]
  · intro hv he
    unfold hydraRights.canView
    have hv' : ¬ hr.version ≠ "0.1" := by simp [hv]
    rw [if_neg hv', if_pos he]

/-- Witness for C2: a "0.2"-versioned record errors for the anonymous user,
and an embargoed "0.1" record admits only the edit checks. -/
theorem C2_canView_version_embargo_witness :
    hydraRights.canView ⟨["public"], [], [], [], 0, "0.2"⟩ 5 anonUser = AuthError
    ∧ hydraRights.canView ⟨["public"], ["dog"], ["igloo"], ["kite"], 10, "0.1"⟩ 5
        ⟨"dog", []⟩ =
        (if member "dog" ["kite"] || incommon [] ["igloo"] then AuthAllow
        else AuthDeny) :=
  ⟨(C2_canView_version_embargo _ anonUser 5).1 (by decide),
   (C2_canView_version_embargo _ ⟨"dog", []⟩ 5).2 rfl (by decide)⟩

/-- C3: once a rights record is obtained, `Check` evaluates the anonymous
user first and short-circuits to `AuthAllow` independently of the identity
resolver; if the anonymous evaluation is not Allow and no resolver is
configured it returns `AuthDeny`; otherwise it returns the rights evaluation
of the resolved user. -/
theorem C3_Check_anonymous_first (r : hydraRights) (now : Int) :
    (r.canView now anonUser = AuthAllow →
      ∀ cu : Option User, Check (some r) cu now = AuthAllow)
    ∧ (r.canView now anonUser ≠ AuthAllow → Check (some r) none now = AuthDeny)
    ∧ (r.canView now anonUser ≠ AuthAllow →
        ∀ u : User, Check (some r) (some u) now = r.canView now u) := by
  refine ⟨fun h cu => ?_, fun h => ?_, fun h u => ?_⟩ <;> simp [Check, h]

/-- Witness for C3: a public record allows anonymously under any resolver; a
restricted record denies without a resolver and defers to the resolved user
with one. -/
theorem C3_Check_anonymous_first_witness :
    Check (some ⟨["public"], [], [], [], 0, "0.1"⟩) none 5 = AuthAllow
    ∧ Check (some ⟨[], ["dog"], [], [], 0, "0.1"⟩) none 5 = AuthDeny
    ∧ Check (some ⟨[], ["dog"], [], [], 0, "0.1"⟩) (some ⟨"dog", []⟩) 5 =
        hydraRights.canView ⟨[], ["dog"], [], [], 0, "0.1"⟩ 5 ⟨"dog", []⟩ :=
  ⟨(C3_Check_anonymous_first _ 5).1 (by decide) none,
   (C3_Check_anonymous_first _ 5).2.1 (by decide),
   (C3_Check_anonymous_first _ 5).2.2 (by decide) ⟨"dog", []⟩⟩

/-- C4 counterexample: `Check` (src/auth/hydra_auth.go lines 122-142) contains
no admin allow-list step.  A caller whose id and group are both on a purported
admin list is still denied when the rights record grants nothing: the claimed
unconditional Allow does not happen. -/
theorem C4_admin_override_counterexample :
    member "admin" ["admin"] = true
    ∧ incommon ["admin"] ["admin"] = true
    ∧ Check (some ⟨[], [], [], [], 0, "0.1"⟩) (some ⟨"admin", ["admin"]⟩) 5
        = AuthDeny := by
  refine ⟨rfl, rfl, ?_⟩
  decide

/-- C4 amended: `Check` performs no admin override.  Whenever the anonymous
short-circuit does not fire, the result for the resolved caller is exactly the
rights model's decision, regardless of the caller's membership in any
purported admin allow-list. -/
theorem C4_no_admin_override (r : hydraRights) (u : User) (now : Int)
    (adminList : List String)
    (hadm : member u.Id adminList = true ∨ incommon u.Groups adminList = true)
    (h : r.canView now anonUser ≠ AuthAllow) :
    Check (some r) (some u) now = r.canView now u := by
  simp [Check, h]

/-- Witness for C4's amended statement. -/
theorem C4_no_admin_override_witness :
    Check (some ⟨[], ["admin"], [], [], 0, "0.1"⟩) (some ⟨"admin", ["admin"]⟩) 5
      = hydraRights.canView ⟨[], ["admin"], [], [], 0, "0.1"⟩ 5 ⟨"admin", ["admin"]⟩ :=
  C4_no_admin_override _ _ 5 ["admin"] (Or.inl (by decide)) (by decide)

/-! ### Time-bounded cache (src/timecache/timecache.go)

`data` is the circular buffer; `head` points to the first empty slot, `tail`
to the oldest non-empty slot; `head = tail` means empty, so only
`data.length - 1` slots are usable.  Times are `Int` nanoseconds. -/

/-- A cache `entry`: key, expiry instant `t`, and stored value. -/
structure entry (V : Type) where
  key : String
  t : Int
  val : V
deriving Repr, DecidableEq

/-- The `timecache` structure (minus the lock and the sweeper channel, which
have no functional content). -/
structure timecache (V : Type) where
  expires : Int
  head : Nat
  tail : Nat
  data : List (entry V)
deriving Repr, DecidableEq

/-- `advance` on a raw length: wrap `i+1` to `0` at `L`. -/
def advRaw (L i : Nat) : Nat :=
  if i + 1 ≥ L then 0 else i + 1

/-- `(tc *timecache) advance(i)` (src/timecache/timecache.go lines 101-107). -/
def timecache.advance {V : Type} (tc : timecache V) (i : Nat) : Nat :=
  advRaw tc.data.length i

/-- The scan loop of `Get` (src/timecache/timecache.go lines 50-56), with
explicit fuel; `Get` supplies fuel `data.length`, enough to walk from `tail`
to `head`. -/
def getLoop {V : Type} (tc : timecache V) (now : Int) (key : String) :
    Nat → Nat → Option V
  | _, 0 => none
  | i, fuel + 1 =>
    if i = tc.head then none
    else
      match tc.data[i]? with
      | none => none
      | some e =>
        if key = e.key ∧ now < e.t then some e.val
        else getLoop tc now key (tc.advance i) fuel

/-- `Get` (src/timecache/timecache.go lines 43-59): scan from `tail` to
`head`, returning the first unexpired entry with the given key; the state is
returned unchanged (the Go method only ever takes the read lock). -/
def timecache.Get {V : Type} (tc : timecache V) (now : Int) (key : String) :
    timecache V × Option V :=
  (tc, getLoop tc now key tc.tail tc.data.length)

/-- `Add` (src/timecache/timecache.go lines 63-78): write the new entry at
`head` with expiry `now + expires`, advance `head`, and if the buffer became
full advance `tail`; the second component is the returned `error`, always
`none` (`nil`). -/
def timecache.Add {V : Type} (tc : timecache V) (now : Int) (key : String)
    (value : V) : timecache V × Option String :=
  let newHead := tc.advance tc.head
  let tc1 : timecache V :=
    { tc with data := tc.data.set tc.head ⟨key, now + tc.expires, value⟩,
              head := newHead }
  if newHead = tc.tail then
    ({ tc1 with tail := tc1.advance tc1.tail }, none)
  else (tc1, none)

/-- `New` (src/timecache/timecache.go lines 82-99): a buffer of `size + 1`
zero entries (`d` stands in for the zero value of the dynamic type), empty
head/tail. -/
def timecache.New (V : Type) (size : Nat) (expires : Int) (d : V) : timecache V :=
  { expires := expires, head := 0, tail := 0,
    data := List.replicate (size + 1) ⟨"", 0, d⟩ }

/-- The sweep period computed in `New` (src/timecache/timecache.go lines
91-96): `expires / (10 * time.Nanosecond)`, floored at 30ms. -/
def newSweepPeriod (expires : Int) : Int :=
  let period := expires / 10
  if period < 30000000 then 30000000 else period

/-- The period actually passed to `backgroundCleaner` by `New`
(src/timecache/timecache.go line 97): the constant `time.Second`,
not the computed sweep period. -/
def newCleanerPeriod : Int := 1000000000

/-- The tail-advancing loop of `prune` (src/timecache/timecache.go lines
142-147), with explicit fuel: walk from `i` until `head` or the first entry
whose expiry is still in the future. -/
def pruneLoop {V : Type} (tc : timecache V) (now : Int) : Nat → Nat → Nat
  | i, 0 => i
  | i, fuel + 1 =>
    if i = tc.head then i
    else
      match tc.data[i]? with
      | none => i
      | some e => if now < e.t then i else pruneLoop tc now (tc.advance i) fuel

/-- `prune` (src/timecache/timecache.go lines 123-150): if the cache is
nonempty and the tail entry has expired (`now.After(t)`), advance `tail` past
all contiguously-expired entries. -/
def timecache.prune {V : Type} (tc : timecache V) (now : Int) : timecache V :=
  if tc.head = tc.tail then tc
  else
    match tc.data[tc.tail]? with
    | none => tc
    | some e =>
      if e.t < now then
        { tc with tail := pruneLoop tc now tc.tail tc.data.length }
      else tc

/-! Spec-side view of the ring buffer: the list of live entries in scan order
(`tail` → `head`). -/

/-- The entries visited starting at `i`, stopping at `head`, with fuel. -/
def liveLoop {V : Type} (tc : timecache V) : Nat → Nat → List (entry V)
  | _, 0 => []
  | i, fuel + 1 =>
    if i = tc.head then []
    else
      match tc.data[i]? with
      | none => []
      | some e => e :: liveLoop tc (tc.advance i) fuel

/-- The live entries of the cache, oldest (tail) first. -/
def liveList {V : Type} (tc : timecache V) : List (entry V) :=
  liveLoop tc tc.tail tc.data.length

/-- Number of steps from `a` forward (cyclically) to `b` in a ring of
length `L`, for `a b < L`. -/
def ringDist (L a b : Nat) : Nat :=
  if a ≤ b then b - a else L - a + b

/-- `n`-fold `advRaw`. -/
def advIter (L : Nat) : Nat → Nat → Nat
  | 0, i => i
  | n + 1, i => advIter L n (advRaw L i)

/-- First `n` entries from `i` following `advance`, with no head stop. -/
def segFrom {V : Type} (tc : timecache V) : Nat → Nat → List (entry V)
  | _, 0 => []
  | i, n + 1 =>
    match tc.data[i]? with
    | none => []
    | some e => e :: segFrom tc (tc.advance i) n

/-! Ring arithmetic lemmas. -/

lemma advRaw_lt {L i : Nat} (hL : 0 < L) : advRaw L i < L := by
  unfold advRaw; split <;> omega

lemma ringDist_self (L a : Nat) : ringDist L a a = 0 := by
  unfold ringDist; simp

lemma ringDist_lt {L a b : Nat} (ha : a < L) (hb : b < L) : ringDist L a b < L := by
  unfold ringDist; split <;> omega

lemma ringDist_eq_zero_iff {L a b : Nat} (ha : a < L) (hb : b < L) :
    ringDist L a b = 0 ↔ a = b := by
  unfold ringDist; split <;> omega

lemma ringDist_advRaw {L a b : Nat} (ha : a < L) (hb : b < L) (hne : a ≠ b) :
    ringDist L (advRaw L a) b = ringDist L a b - 1 ∧ 1 ≤ ringDist L a b := by
  unfold ringDist advRaw
  split <;> split <;> split <;> omega

lemma ringDist_succ_of_ne {L a b : Nat} (ha : a < L) (hb : b < L)
    (hne : advRaw L b ≠ a) : ringDist L a (advRaw L b) = ringDist L a b + 1 := by
  unfold advRaw at *
  by_cases hb1 : b + 1 ≥ L
  · simp only [if_pos hb1] at hne ⊢
    unfold ringDist; split <;> split <;> omega
  · simp only [if_neg hb1] at hne ⊢
    unfold ringDist; split <;> split <;> omega

lemma ringDist_of_advRaw_eq {L a b : Nat} (ha : a < L) (hb : b < L)
    (heq : advRaw L b = a) : ringDist L a b = L - 1 := by
  unfold ringDist advRaw at *
  split at heq <;> split <;> omega

lemma advRaw_ne_self {L a : Nat} (ha : a < L) (hL : 2 ≤ L) : advRaw L a ≠ a := by
  unfold advRaw; split <;> omega

lemma advIter_ringDist {L a b : Nat} (ha : a < L) (hb : b < L) :
    advIter L (ringDist L a b) a = b := by
  generalize hn : ringDist L a b = n
  induction n generalizing a with
  | zero =>
    have : a = b := (ringDist_eq_zero_iff ha hb).mp hn
    simpa [advIter] using this
  | succ n ih =>
    have hne : a ≠ b := by
      intro h; subst h; rw [ringDist_self] at hn; exact Nat.succ_ne_zero n hn.symm
    obtain ⟨h1, h2⟩ := ringDist_advRaw ha hb hne
    have hL : 0 < L := Nat.lt_of_le_of_lt (Nat.zero_le a) ha
    exact ih (advRaw_lt hL) (by omega)

/-! Segment lemmas. -/

lemma segFrom_congr {V : Type} (tc tc' : timecache V) (hdata : tc'.data = tc.data) :
    ∀ n i, segFrom tc' i n = segFrom tc i n := by
  intro n
  induction n with
  | zero => intro i; rfl
  | succ n ih =>
    intro i
    unfold segFrom
    rw [hdata]
    unfold timecache.advance
    rw [hdata]
    cases tc.data[i]? with
    | none => rfl
    | some e => simpa using ih (advRaw tc.data.length i)

lemma liveLoop_congr {V : Type} (tc tc' : timecache V) (hdata : tc'.data = tc.data)
    (hhead : tc'.head = tc.head) :
    ∀ fuel i, liveLoop tc' i fuel = liveLoop tc i fuel := by
  intro fuel
  induction fuel with
  | zero => intro i; rfl
  | succ fuel ih =>
    intro i
    unfold liveLoop
    rw [hdata, hhead]
    unfold timecache.advance
    rw [hdata]
    cases h : tc.data[i]? with
    | none => simp
    | some e => simp [ih]

lemma segFrom_set {V : Type} (tc : timecache V) (p : Nat) (e : entry V)
    (hp : p < tc.data.length) :
    ∀ n i, i < tc.data.length → n ≤ ringDist tc.data.length i p →
      segFrom { tc with data := tc.data.set p e } i n = segFrom tc i n := by
  intro n
  induction n with
  | zero => intro i _ _; rfl
  | succ n ih =>
    intro i hi hn
    have hip : i ≠ p := by
      intro h; subst h
      rw [ringDist_self] at hn; omega
    unfold segFrom
    simp only [List.getElem?_set_ne hip.symm, timecache.advance, List.length_set]
    cases h : tc.data[i]? with
    | none => rfl
    | some e' =>
      have hL : 0 < tc.data.length := by omega
      obtain ⟨h1, h2⟩ := ringDist_advRaw hi hp hip
      simpa using ih (advRaw tc.data.length i) (advRaw_lt hL) (by omega)

lemma segFrom_succ {V : Type} (tc : timecache V) :
    ∀ n i, i < tc.data.length →
      segFrom tc i (n + 1) =
        segFrom tc i n ++ (tc.data[advIter tc.data.length n i]?).toList := by
  intro n
  induction n with
  | zero =>
    intro i hi
    unfold segFrom
    rw [List.getElem?_eq_getElem hi]
    simp [advIter, List.getElem?_eq_getElem hi, segFrom]
  | succ n ih =>
    intro i hi
    have hL : 0 < tc.data.length := by omega
    conv_lhs => unfold segFrom
    conv_rhs => unfold segFrom
    rw [List.getElem?_eq_getElem hi]
    simp only
    rw [ih (tc.advance i) (advRaw_lt hL)]
    simp [advIter, timecache.advance]

lemma segFrom_length {V : Type} (tc : timecache V) :
    ∀ n i, i < tc.data.length → (segFrom tc i n).length = n := by
  intro n
  induction n with
  | zero => intro i _; rfl
  | succ n ih =>
    intro i hi
    have hL : 0 < tc.data.length := by omega
    unfold segFrom
    rw [List.getElem?_eq_getElem hi]
    simpa using ih (tc.advance i) (advRaw_lt hL)

lemma liveLoop_eq_segFrom {V : Type} (tc : timecache V)
    (hhead : tc.head < tc.data.length) :
    ∀ n i fuel, i < tc.data.length → ringDist tc.data.length i tc.head = n →
      n ≤ fuel → liveLoop tc i fuel = segFrom tc i n := by
  intro n
  induction n with
  | zero =>
    intro i fuel hi hd _
    have : i = tc.head := (ringDist_eq_zero_iff hi hhead).mp hd
    cases fuel with
    | zero => rfl
    | succ fuel => unfold liveLoop; rw [if_pos this]; rfl
  | succ n ih =>
    intro i fuel hi hd hfuel
    have hne : i ≠ tc.head := by
      intro h; subst h; rw [ringDist_self] at hd; omega
    obtain ⟨fuel, rfl⟩ : ∃ f, fuel = f + 1 := ⟨fuel - 1, by omega⟩
    have hL : 0 < tc.data.length := by omega
    obtain ⟨h1, h2⟩ := ringDist_advRaw hi hhead hne
    unfold liveLoop segFrom
    rw [if_neg hne, List.getElem?_eq_getElem hi]
    simpa using ih (tc.advance i) fuel (advRaw_lt hL) (by simpa [timecache.advance] using by omega) (by omega)

lemma liveList_eq_segFrom {V : Type} (tc : timecache V)
    (htail : tc.tail < tc.data.length) (hhead : tc.head < tc.data.length) :
    liveList tc = segFrom tc tc.tail (ringDist tc.data.length tc.tail tc.head) :=
  liveLoop_eq_segFrom tc hhead _ tc.tail tc.data.length htail rfl
    (Nat.le_of_lt (ringDist_lt htail hhead))

lemma getLoop_eq_find {V : Type} (tc : timecache V) (now : Int) (key : String) :
    ∀ fuel i, getLoop tc now key i fuel =
      ((liveLoop tc i fuel).find? (fun e => decide (key = e.key ∧ now < e.t))).map
        entry.val := by
  intro fuel
  induction fuel with
  | zero => intro i; rfl
  | succ fuel ih =>
    intro i
    unfold getLoop liveLoop
    by_cases hh : i = tc.head
    · simp [hh]
    · rw [if_neg hh, if_neg hh]
      cases h : tc.data[i]? with
      | none => rfl
      | some e =>
        simp only
        by_cases hm : key = e.key ∧ now < e.t
        · rw [if_pos hm, List.find?_cons_of_pos _ (by simpa using hm)]
          rfl
        · rw [if_neg hm, List.find?_cons_of_neg _ (by simpa using hm)]
          exact ih (tc.advance i)

/-- C5: `Get` returns the cache unchanged (no mutation, no TTL extension),
and its result is the value of the first entry in the tail-to-head live list
whose key matches and whose expiry is still in the future (the oldest
remaining unexpired match); it is `none` (ErrNotFound) exactly when no live
entry matches unexpired. -/
theorem C5_Get_scan (V : Type) (tc : timecache V) (now : Int) (key : String) :
    (tc.Get now key).1 = tc
    ∧ (tc.Get now key).2 =
        ((liveList tc).find? (fun e => decide (key = e.key ∧ now < e.t))).map
          entry.val
    ∧ ((tc.Get now key).2 = none ↔
        ∀ e ∈ liveList tc, ¬ (key = e.key ∧ now < e.t)) := by
  refine ⟨rfl, getLoop_eq_find tc now key tc.data.length tc.tail, ?_⟩
  rw [show (tc.Get now key).2 = _ from getLoop_eq_find tc now key tc.data.length tc.tail]
  rw [show liveLoop tc tc.tail tc.data.length = liveList tc from rfl]
  simp [Option.map_eq_none', List.find?_eq_none]

lemma liveList_Add {V : Type} (tc : timecache V) (now : Int) (key : String)
    (value : V) (hhead : tc.head < tc.data.length) (htail : tc.tail < tc.data.length)
    (hL : 2 ≤ tc.data.length) :
    liveList (tc.Add now key value).1 =
      (if tc.advance tc.head = tc.tail then (liveList tc).drop 1 else liveList tc)
        ++ [⟨key, now + tc.expires, value⟩] := by
  have hL0 : 0 < tc.data.length := by omega
  by_cases hfull : tc.advance tc.head = tc.tail
  · -- buffer full: tail advances
    rw [if_pos hfull]
    set eN : entry V := ⟨key, now + tc.expires, value⟩ with heN
    set tc1 : timecache V :=
      { tc with data := tc.data.set tc.head eN, head := tc.advance tc.head,
                tail := advRaw tc.data.length tc.tail } with htc1
    have hlen : tc1.data.length = tc.data.length := by simp [htc1]
    have hadvth : advRaw tc.data.length tc.head = tc.tail := by
      simpa [timecache.advance] using hfull
    have hstate : (tc.Add now key value).1 = tc1 := by
      simp [timecache.Add, htc1, timecache.advance, hadvth]
    have hth : tc.tail ≠ tc.head := by
      intro h
      exact advRaw_ne_self hhead hL (by simpa [timecache.advance, h] using hfull)
    have hdist : ringDist tc.data.length tc.tail tc.head = tc.data.length - 1 :=
      ringDist_of_advRaw_eq htail hhead hadvth
    have ht' : advRaw tc.data.length tc.tail < tc.data.length := advRaw_lt hL0
    have hh'lt : tc1.head < tc1.data.length := by
      simpa [htc1, timecache.advance] using advRaw_lt (i := tc.head) hL0
    have ht'lt : tc1.tail < tc1.data.length := by simpa [htc1] using ht'
    have hdist' : ringDist tc.data.length (advRaw tc.data.length tc.tail) tc.tail =
        tc.data.length - 1 :=
      ringDist_of_advRaw_eq ht' htail rfl
    have hdist'' : ringDist tc.data.length (advRaw tc.data.length tc.tail) tc.head =
        tc.data.length - 2 := by
      obtain ⟨h1, h2⟩ := ringDist_advRaw htail hhead hth
      omega
    have e1 : liveList tc1 =
        segFrom tc1 (advRaw tc.data.length tc.tail) (tc.data.length - 1) := by
      have h2 := liveList_eq_segFrom tc1 ht'lt hh'lt
      have : ringDist tc1.data.length tc1.tail tc1.head = tc.data.length - 1 := by
        simpa [htc1, timecache.advance, hadvth] using hdist'
      rw [this] at h2
      simpa [htc1] using h2
    have e3 : segFrom tc1 (advRaw tc.data.length tc.tail) (tc.data.length - 2 + 1)
        = segFrom tc1 (advRaw tc.data.length tc.tail) (tc.data.length - 2)
          ++ (tc1.data[advIter tc1.data.length (tc.data.length - 2)
                (advRaw tc.data.length tc.tail)]?).toList :=
      segFrom_succ tc1 _ _ ht'lt
    have e4 : advIter tc1.data.length (tc.data.length - 2)
        (advRaw tc.data.length tc.tail) = tc.head := by
      rw [hlen]
      have := advIter_ringDist ht' hhead
      rwa [hdist''] at this
    have e5 : tc1.data[tc.head]? = some eN := List.getElem?_set_self hhead
    have e6 : segFrom tc1 (advRaw tc.data.length tc.tail) (tc.data.length - 2)
        = segFrom tc (advRaw tc.data.length tc.tail) (tc.data.length - 2) := by
      have hcg := segFrom_congr { tc with data := tc.data.set tc.head eN } tc1
        (by simp [htc1]) (tc.data.length - 2) (advRaw tc.data.length tc.tail)
      rw [hcg]
      exact segFrom_set tc tc.head eN hhead _ _ ht' (by rw [hdist''])
    have e7 : liveList tc = segFrom tc tc.tail (tc.data.length - 1) := by
      have := liveList_eq_segFrom tc htail hhead
      rwa [hdist] at this
    have e8 : segFrom tc tc.tail (tc.data.length - 2 + 1)
        = tc.data[tc.tail] :: segFrom tc (tc.advance tc.tail) (tc.data.length - 2) := by
      conv_lhs => unfold segFrom
      rw [List.getElem?_eq_getElem htail]
    calc liveList (tc.Add now key value).1
        = liveList tc1 := by rw [hstate]
      _ = segFrom tc1 (advRaw tc.data.length tc.tail) (tc.data.length - 1) := e1
      _ = segFrom tc1 (advRaw tc.data.length tc.tail) (tc.data.length - 2 + 1) := by
            congr 1; omega
      _ = segFrom tc1 (advRaw tc.data.length tc.tail) (tc.data.length - 2)
            ++ (tc1.data[advIter tc1.data.length (tc.data.length - 2)
                  (advRaw tc.data.length tc.tail)]?).toList := e3
      _ = segFrom tc (advRaw tc.data.length tc.tail) (tc.data.length - 2) ++ [eN] := by
            rw [e4, e5, e6]; rfl
      _ = (liveList tc).drop 1 ++ [eN] := by
            rw [e7, show tc.data.length - 1 = tc.data.length - 2 + 1 from by omega, e8]
            simp [timecache.advance]
  · -- buffer not full
    rw [if_neg hfull]
    set eN : entry V := ⟨key, now + tc.expires, value⟩ with heN
    set tc1 : timecache V :=
      { tc with data := tc.data.set tc.head eN, head := tc.advance tc.head } with htc1
    have hlen : tc1.data.length = tc.data.length := by simp [htc1]
    have hstate : (tc.Add now key value).1 = tc1 := by
      simp [timecache.Add, hfull, htc1]
    have hne' : advRaw tc.data.length tc.head ≠ tc.tail := by
      simpa [timecache.advance] using hfull
    have hh'lt : tc1.head < tc1.data.length := by
      simpa [htc1, timecache.advance] using advRaw_lt (i := tc.head) hL0
    have ht'lt : tc1.tail < tc1.data.length := by simpa [htc1] using htail
    have e2 : ringDist tc.data.length tc.tail (advRaw tc.data.length tc.head)
        = ringDist tc.data.length tc.tail tc.head + 1 :=
      ringDist_succ_of_ne htail hhead hne'
    have e1 : liveList tc1 =
        segFrom tc1 tc.tail (ringDist tc.data.length tc.tail tc.head + 1) := by
      have h2 := liveList_eq_segFrom tc1 ht'lt hh'lt
      have h3 : ringDist tc1.data.length tc1.tail tc1.head =
          ringDist tc.data.length tc.tail tc.head + 1 := by
        rw [show tc1.tail = tc.tail from rfl, hlen,
          show tc1.head = advRaw tc.data.length tc.head from by
            simp [htc1, timecache.advance]]
        exact e2
      rw [h3] at h2
      exact h2
    have e3 : segFrom tc1 tc.tail (ringDist tc.data.length tc.tail tc.head + 1)
        = segFrom tc1 tc.tail (ringDist tc.data.length tc.tail tc.head)
          ++ (tc1.data[advIter tc1.data.length
                (ringDist tc.data.length tc.tail tc.head) tc.tail]?).toList :=
      segFrom_succ tc1 _ tc.tail ht'lt
    have e4 : advIter tc1.data.length (ringDist tc.data.length tc.tail tc.head)
        tc.tail = tc.head := by
      rw [hlen]; exact advIter_ringDist htail hhead
    have e5 : tc1.data[tc.head]? = some eN := List.getElem?_set_self hhead
    have e6 : segFrom tc1 tc.tail (ringDist tc.data.length tc.tail tc.head)
        = segFrom tc tc.tail (ringDist tc.data.length tc.tail tc.head) := by
      have hcg := segFrom_congr { tc with data := tc.data.set tc.head eN } tc1
        (by simp [htc1]) (ringDist tc.data.length tc.tail tc.head) tc.tail
      rw [hcg]
      exact segFrom_set tc tc.head eN hhead _ tc.tail htail (le_refl _)
    have e7 : segFrom tc tc.tail (ringDist tc.data.length tc.tail tc.head)
        = liveList tc := (liveList_eq_segFrom tc htail hhead).symm
    calc liveList (tc.Add now key value).1
        = liveList tc1 := by rw [hstate]
      _ = segFrom tc1 tc.tail (ringDist tc.data.length tc.tail tc.head + 1) := e1
      _ = segFrom tc1 tc.tail (ringDist tc.data.length tc.tail tc.head)
            ++ (tc1.data[advIter tc1.data.length
                  (ringDist tc.data.length tc.tail tc.head) tc.tail]?).toList := e3
      _ = liveList tc ++ [eN] := by rw [e4, e5, e6, e7]; rfl

lemma liveList_length {V : Type} (tc : timecache V)
    (htail : tc.tail < tc.data.length) (hhead : tc.head < tc.data.length) :
    (liveList tc).length = ringDist tc.data.length tc.tail tc.head := by
  rw [liveList_eq_segFrom tc htail hhead]
  exact segFrom_length tc _ _ htail

lemma Add_components {V : Type} (tc : timecache V) (now : Int) (key : String)
    (value : V) (hhead : tc.head < tc.data.length)
    (htail : tc.tail < tc.data.length) :
    (tc.Add now key value).1.data.length = tc.data.length
    ∧ (tc.Add now key value).1.head < tc.data.length
    ∧ (tc.Add now key value).1.tail < tc.data.length := by
  have hL0 : 0 < tc.data.length := by omega
  by_cases hfull : tc.advance tc.head = tc.tail
  · have hadvth : advRaw tc.data.length tc.head = tc.tail := by
      simpa [timecache.advance] using hfull
    have hstate : (tc.Add now key value).1 =
        { tc with data := tc.data.set tc.head ⟨key, now + tc.expires, value⟩,
                  head := tc.advance tc.head,
                  tail := advRaw tc.data.length tc.tail } := by
      simp [timecache.Add, timecache.advance, hadvth]
    rw [hstate]
    exact ⟨by simp, by simpa [timecache.advance, hadvth] using htail,
      by simpa using advRaw_lt (i := tc.tail) hL0⟩
  · have hne' : advRaw tc.data.length tc.head ≠ tc.tail := by
      simpa [timecache.advance] using hfull
    have hstate : (tc.Add now key value).1 =
        { tc with data := tc.data.set tc.head ⟨key, now + tc.expires, value⟩,
                  head := tc.advance tc.head } := by
      simp [timecache.Add, timecache.advance, hne']
    rw [hstate]
    exact ⟨by simp, by simpa [timecache.advance] using advRaw_lt (i := tc.head) hL0,
      by simpa using htail⟩

/-- C6: `Add` never returns an error; it appends the new entry with expiry
`now + expires` at the head end of the live list even when the key is already
present, dropping the oldest entry exactly when the ring was full; the live
list never exceeds `capacity - 1 = data.length - 1` entries; and concretely,
on a fresh size-3 cache with TTL 100, inserting 4 distinct keys makes the
first key unreachable via `Get` at time 0 even though its entry would only
expire at time 100 (while it was still reachable after 3 inserts). -/
theorem C6_Add_eviction (V : Type) (tc : timecache V) (now : Int) (key : String)
    (value : V) (hhead : tc.head < tc.data.length)
    (htail : tc.tail < tc.data.length) (hL : 2 ≤ tc.data.length) :
    (tc.Add now key value).2 = none
    ∧ liveList (tc.Add now key value).1 =
        (if tc.advance tc.head = tc.tail then (liveList tc).drop 1 else liveList tc)
          ++ [⟨key, now + tc.expires, value⟩]
    ∧ (liveList (tc.Add now key value).1).length ≤ tc.data.length - 1
    ∧ (((((timecache.New Nat 3 100 0).Add 0 "a" 1).1.Add 0 "b" 2).1.Add 0 "c" 3).1.Get
          0 "a").2 = some 1
    ∧ ((((((timecache.New Nat 3 100 0).Add 0 "a" 1).1.Add 0 "b" 2).1.Add 0 "c" 3).1.Add
          0 "d" 4).1.Get 0 "a").2 = none
    ∧ (0 : Int) < 0 + (timecache.New Nat 3 100 0).expires := by
  obtain ⟨hlen', hhead', htail'⟩ := Add_components tc now key value hhead htail
  have hL0 : 0 < tc.data.length := by omega
  refine ⟨?_, liveList_Add tc now key value hhead htail hL, ?_, by decide, by decide,
    by decide⟩
  · unfold timecache.Add
    by_cases hfull : tc.advance tc.head = tc.tail <;> simp [hfull]
  · have := liveList_length (tc.Add now key value).1 (by omega) (by omega)
    have hrd : ringDist (tc.Add now key value).1.data.length
        (tc.Add now key value).1.tail (tc.Add now key value).1.head <
        tc.data.length := by
      have := ringDist_lt (L := (tc.Add now key value).1.data.length)
        (a := (tc.Add now key value).1.tail) (b := (tc.Add now key value).1.head)
        (by omega) (by omega)
      omega
    omega

/-- Witness for C6 on a fresh size-3 cache. -/
theorem C6_Add_eviction_witness :
    (timecache.New Nat 3 100 0).head < (timecache.New Nat 3 100 0).data.length
    ∧ ((timecache.New Nat 3 100 0).Add 0 "k" 7).2 = none :=
  ⟨by decide,
   (C6_Add_eviction Nat (timecache.New Nat 3 100 0) 0 "k" 7 (by decide) (by decide)
      (by decide)).1⟩

/-- C7 (code bug): `New`'s comment computes the sweep period as one tenth of
the TTL floored at 30ms (`newSweepPeriod`), but the call on line 97 passes the
constant `time.Second` (`newCleanerPeriod`) to `backgroundCleaner`, ignoring
the computed period — with the historical 5-minute TTL the claimed interval is
30s, the actual one 1s.  The tail-advancing half of the claim does hold: on a
concrete ring whose tail-adjacent entries have expiries 1 and 2, pruning at
time 3 moves `tail` to the first entry expiring in the future (expiry 5), the
pruned entries becoming unreachable through `Get` while later ones remain. -/
theorem C7_sweep_period_bug :
    newSweepPeriod 300000000000 = 30000000000
    ∧ newCleanerPeriod = 1000000000
    ∧ newSweepPeriod 300000000000 ≠ newCleanerPeriod
    ∧ newSweepPeriod 100000000 = 30000000
    ∧ (timecache.prune
        (⟨100, 4, 0, [⟨"a", 1, 1⟩, ⟨"b", 2, 2⟩, ⟨"c", 5, 3⟩, ⟨"d", 7, 4⟩, ⟨"", 0, 0⟩]⟩ :
          timecache Nat) 3).tail = 2
    ∧ liveList (timecache.prune
        (⟨100, 4, 0, [⟨"a", 1, 1⟩, ⟨"b", 2, 2⟩, ⟨"c", 5, 3⟩, ⟨"d", 7, 4⟩, ⟨"", 0, 0⟩]⟩ :
          timecache Nat) 3) = [⟨"c", 5, 3⟩, ⟨"d", 7, 4⟩]
    ∧ ((timecache.prune
        (⟨100, 4, 0, [⟨"a", 1, 1⟩, ⟨"b", 2, 2⟩, ⟨"c", 5, 3⟩, ⟨"d", 7, 4⟩, ⟨"", 0, 0⟩]⟩ :
          timecache Nat) 3).Get 3 "a").2 = none
    ∧ ((timecache.prune
        (⟨100, 4, 0, [⟨"a", 1, 1⟩, ⟨"b", 2, 2⟩, ⟨"c", 5, 3⟩, ⟨"d", 7, 4⟩, ⟨"", 0, 0⟩]⟩ :
          timecache Nat) 3).Get 3 "c").2 = some 3 := by
  refine ⟨by decide, rfl, by decide, by decide, by decide, by decide, by decide, by decide⟩

/-! ### Decoding rights metadata (src/auth/hydra_auth.go lines 210-275) -/

/-- `accessMetadata`: one `access` block of the rights document. -/
structure accessMetadata where
  Kind : String
  People : List String
  Groups : List String
deriving Repr, DecidableEq

/-- `rightsMetadata`: the decoded rights document. -/
structure rightsMetadata where
  Version : String
  Access : List accessMetadata
  Embargo : String
deriving Repr, DecidableEq

/-- One iteration of the access-accumulation loop in `getRights`
(src/auth/hydra_auth.go lines 251-260). -/
def addAccess (hr : hydraRights) (a : accessMetadata) : hydraRights :=
  if a.Kind = "read" then
    { hr with readGroups := hr.readGroups ++ a.Groups,
              readPeople := hr.readPeople ++ a.People }
  else if a.Kind = "edit" then
    { hr with editGroups := hr.editGroups ++ a.Groups,
              editPeople := hr.editPeople ++ a.People }
  else hr

/-- The construction of the `hydraRights` record in `getRights`
(src/auth/hydra_auth.go lines 250-271).  `parseDate` models
`time.Parse("2006-01-02", ·)`: `none` on a malformed date, in which case the
Go code logs and keeps the zero `time.Time` returned by `time.Parse`, so
`embargo` is the zero time. -/
def buildRights (parseDate : String → Option Int) (meta : rightsMetadata) :
    hydraRights :=
  let result : hydraRights := ⟨[], [], [], [], 0, meta.Version⟩
  let result := meta.Access.foldl addAccess result
  if meta.Embargo ≠ "" then
    { result with embargo := (parseDate meta.Embargo).getD 0 }
  else result

/-- `getRights` (src/auth/hydra_auth.go lines 225-275) at the decision level:
`fetched` is the fetched-and-decoded rights document (`none` for a Fedora
error or a decode error, both of which make `getRights` return nil); a cache
hit returns the cached record, a miss builds the record, caches it and
returns it. -/
def getRights (cache : timecache hydraRights) (now : Int) (id : String)
    (fetched : Option rightsMetadata) (parseDate : String → Option Int) :
    timecache hydraRights × Option hydraRights :=
  match (cache.Get now id).2 with
  | some r => (cache, some r)
  | none =>
    match fetched with
    | none => (cache, none)
    | some meta =>
      let result := buildRights parseDate meta
      ((cache.Add now id result).1, some result)

lemma foldl_addAccess_embargo :
    ∀ (l : List accessMetadata) (hr : hydraRights),
      (l.foldl addAccess hr).embargo = hr.embargo := by
  intro l
  induction l with
  | nil => intro hr; rfl
  | cons a rest ih =>
    intro hr
    rw [List.foldl_cons, ih]
    unfold addAccess
    split
    · rfl
    · split <;> rfl

/-- C10: when the rights document decodes but its non-empty embargo date
fails to parse, `getRights` still returns (and caches) a usable record whose
embargo is the zero time; at any non-negative clock the record is evaluated
with no active embargo, so ordinary read grants apply. -/
theorem C10_malformed_embargo (cache : timecache hydraRights) (now : Int)
    (id : String) (meta : rightsMetadata) (parseDate : String → Option Int)
    (hmiss : (cache.Get now id).2 = none)
    (hne : meta.Embargo ≠ "") (hfail : parseDate meta.Embargo = none) :
    (getRights cache now id (some meta) parseDate).2 =
        some (buildRights parseDate meta)
    ∧ (getRights cache now id (some meta) parseDate).1 =
        (cache.Add now id (buildRights parseDate meta)).1
    ∧ (buildRights parseDate meta).embargo = 0
    ∧ ∀ (u : User) (now2 : Int), ¬ now2 < 0 →
        (buildRights parseDate meta).version = "0.1" →
        ((buildRights parseDate meta).canView now2 u = AuthAllow ↔
          readGrant (buildRights parseDate meta) u) := by
  have hemb : (buildRights parseDate meta).embargo = 0 := by
    unfold buildRights
    rw [if_pos hne]
    simp [hfail]
  refine ⟨by simp [getRights, hmiss], by simp [getRights, hmiss], hemb, ?_⟩
  intro u now2 h2 hv
  rw [canView_no_embargo_eq _ u now2 hv (by rw [hemb]; exact h2)]
  by_cases h : readGrant (buildRights parseDate meta) u <;> simp [h]

/-- Witness for C10: a fresh cache, a record with read grants and an
unparsable embargo date. -/
theorem C10_malformed_embargo_witness :
    (buildRights (fun _ => none) ⟨"0.1", [⟨"read", ["apple"], ["dog"]⟩], "bogus"⟩).embargo
        = 0
    ∧ (getRights (timecache.New hydraRights 3 300 ⟨[], [], [], [], 0, ""⟩) 0 "obj"
        (some ⟨"0.1", [⟨"read", ["apple"], ["dog"]⟩], "bogus"⟩) (fun _ => none)).2 =
      some (buildRights (fun _ => none) ⟨"0.1", [⟨"read", ["apple"], ["dog"]⟩], "bogus"⟩) :=
  ⟨(C10_malformed_embargo (timecache.New hydraRights 3 300 ⟨[], [], [], [], 0, ""⟩) 0
      "obj" ⟨"0.1", [⟨"read", ["apple"], ["dog"]⟩], "bogus"⟩ (fun _ => none)
      (by decide) (by decide) rfl).2.2.1,
   (C10_malformed_embargo (timecache.New hydraRights 3 300 ⟨[], [], [], [], 0, ""⟩) 0
      "obj" ⟨"0.1", [⟨"read", ["apple"], ["dog"]⟩], "bogus"⟩ (fun _ => none)
      (by decide) (by decide) rfl).1⟩

/-! ### Forward-seek stream (src/stream_seeker.go)

The wrapped forward-only reader is modelled as a byte list `src` together
with the count of bytes already consumed; the Go invariant `ss.i = total
bytes consumed from ss.s` holds because `Read` is the only consumer.  The
deterministic reader returns `min cap remaining` bytes, or `io.EOF` when the
source is exhausted. -/

/-- Stream errors: the two `StreamSeeker` sentinel errors plus `io.EOF`
propagated verbatim from the underlying reader. -/
inductive StreamErr where
  | ErrInvalidPos
  | ErrWhence
  | ioEOF
deriving Repr, DecidableEq

/-- `StreamSeeker` state: logical position `pos`, bytes consumed `i`, and the
declared total `size`. -/
structure StreamSeeker where
  pos : Int
  i : Int
  size : Int
deriving Repr, DecidableEq

/-- `NewStreamSeeker` (src/stream_seeker.go lines 28-33). -/
def NewStreamSeeker (size : Int) : StreamSeeker := ⟨0, 0, size⟩

/-- `Seek` (src/stream_seeker.go lines 36-56). -/
def StreamSeeker.Seek (ss : StreamSeeker) (offset : Int) (whence : Int) :
    Except StreamErr (Int × StreamSeeker) :=
  match (if whence = 0 then Except.ok offset
    else if whence = 1 then Except.ok (ss.pos + offset)
    else if whence = 2 then Except.ok (ss.size + offset)
    else Except.error StreamErr.ErrWhence : Except StreamErr Int) with
  | .error e => .error e
  | .ok a =>
    if a < ss.i then .error .ErrInvalidPos
    else if a > ss.size then .error .ErrInvalidPos
    else .ok (a, { ss with pos := a })

/-- The absolute target a `Seek` call computes, `none` for a bad whence. -/
def seekTarget (ss : StreamSeeker) (offset : Int) (whence : Int) : Option Int :=
  if whence = 0 then some offset
  else if whence = 1 then some (ss.pos + offset)
  else if whence = 2 then some (ss.size + offset)
  else none

/-- The catch-up loop of `Read` (src/stream_seeker.go lines 60-71): while
`i < pos`, read up to `min cap (pos - i)` bytes from the source into the
caller's buffer and discard them; an exhausted source surfaces as `io.EOF`.
Fuel `(pos - i).toNat` bounds the iteration count since every successful
underlying read returns at least one byte. -/
def catchup (src : List Nat) (pos : Int) (cap : Nat) :
    Int → Nat → Except StreamErr Int
  | i, 0 => .ok i
  | i, fuel + 1 =>
    if i < pos then
      let pp : Int := if i + (cap : Int) > pos then pos - i else (cap : Int)
      let n : Int := min pp ((src.length : Int) - i)
      if n ≤ 0 then .error .ioEOF
      else catchup src pos cap (i + n) fuel
    else .ok i

/-- `Read` (src/stream_seeker.go lines 58-79): catch up to the logical
position, then read into the caller's buffer of capacity `cap`, advancing
both counters by the bytes actually read. -/
def StreamSeeker.Read (src : List Nat) (ss : StreamSeeker) (cap : Nat) :
    Except StreamErr (List Nat × StreamSeeker) :=
  match catchup src ss.pos cap ss.i (ss.pos - ss.i).toNat with
  | .error e => .error e
  | .ok i' =>
    if cap = 0 then .ok ([], { ss with i := i' })
    else if (src.length : Int) - i' ≤ 0 then .error .ioEOF
    else
      let n : Int := min (cap : Int) ((src.length : Int) - i')
      .ok ((src.drop i'.toNat).take n.toNat,
        { ss with pos := ss.pos + n, i := i' + n })

lemma Seek_eq_target (ss : StreamSeeker) (offset whence a : Int)
    (hsome : seekTarget ss offset whence = some a) :
    ss.Seek offset whence =
      (if a < ss.i then .error .ErrInvalidPos
      else if a > ss.size then .error .ErrInvalidPos
      else .ok (a, { ss with pos := a })) := by
  unfold seekTarget at hsome
  unfold StreamSeeker.Seek
  by_cases h0 : whence = 0
  · rw [if_pos h0] at hsome
    rw [if_pos h0]
    injection hsome with hs
    subst hs
    rfl
  · rw [if_neg h0] at hsome
    rw [if_neg h0]
    by_cases h1 : whence = 1
    · rw [if_pos h1] at hsome
      rw [if_pos h1]
      injection hsome with hs
      subst hs
      rfl
    · rw [if_neg h1] at hsome
      rw [if_neg h1]
      by_cases h2 : whence = 2
      · rw [if_pos h2] at hsome
        rw [if_pos h2]
        injection hsome with hs
        subst hs
        rfl
      · rw [if_neg h2] at hsome
        exact absurd hsome (by simp)

lemma catchup_ok (src : List Nat) (pos : Int) (cap : Nat) (hcap : 1 ≤ cap) :
    ∀ (fuel : Nat) (i : Int), 0 ≤ i → i ≤ pos → pos ≤ (src.length : Int) →
      (pos - i).toNat ≤ fuel → catchup src pos cap i fuel = .ok pos := by
  intro fuel
  induction fuel with
  | zero =>
    intro i h0 hip hps hf
    have : i = pos := by omega
    simp [catchup, this]
  | succ fuel ih =>
    intro i h0 hip hps hf
    by_cases hlt : i < pos
    · unfold catchup
      rw [if_pos hlt]
      have hpp : (1 : Int) ≤ (if i + (cap : Int) > pos then pos - i else (cap : Int)) := by
        split <;> omega
      have hpple : (if i + (cap : Int) > pos then pos - i else (cap : Int)) ≤ pos - i := by
        split <;> omega
      have hn1 : (1 : Int) ≤ min (if i + (cap : Int) > pos then pos - i else (cap : Int))
          ((src.length : Int) - i) := by
        have : (1 : Int) ≤ (src.length : Int) - i := by omega
        omega
      rw [if_neg (by omega)]
      exact ih _ (by omega) (by omega) hps (by omega)
    · have : i = pos := by omega
      simp [catchup, hlt, this]

/-- C8: a `StreamSeeker` over a forward-only source of declared size:
an unrecognized whence code fails with `ErrWhence`; a computed target below
the consumed count `i` or above the declared size fails with
`ErrInvalidPos`; a target in `[i, size]` succeeds, changing only the logical
position (no I/O, `i` and `size` untouched); and a read after such a seek
returns exactly the source's bytes starting at the sought offset, advancing
both counters to the end of the bytes read. -/
theorem C8_StreamSeeker_seek_read (src : List Nat) (ss : StreamSeeker) (cap : Nat)
    (hi0 : 0 ≤ ss.i) (hip : ss.i ≤ ss.pos) (hps : ss.pos ≤ ss.size)
    (hsz : ss.size = (src.length : Int)) (hcap : 1 ≤ cap) :
    (∀ offset whence, ¬ (whence = 0 ∨ whence = 1 ∨ whence = 2) →
        ss.Seek offset whence = .error .ErrWhence)
    ∧ (∀ offset whence a, seekTarget ss offset whence = some a →
        (a < ss.i ∨ a > ss.size) → ss.Seek offset whence = .error .ErrInvalidPos)
    ∧ (∀ offset whence a, seekTarget ss offset whence = some a →
        ss.i ≤ a → a ≤ ss.size →
        ss.Seek offset whence = .ok (a, { ss with pos := a }))
    ∧ (∀ t : Int, ss.i ≤ t → t ≤ ss.size → t < (src.length : Int) →
        StreamSeeker.Read src { ss with pos := t } cap =
          .ok ((src.drop t.toNat).take (min (cap : Int) ((src.length : Int) - t)).toNat,
            ⟨t + min (cap : Int) ((src.length : Int) - t),
             t + min (cap : Int) ((src.length : Int) - t), ss.size⟩)) := by
  refine ⟨?_, ?_, ?_, ?_⟩
  · intro offset whence hw
    unfold StreamSeeker.Seek
    rw [if_neg (by tauto), if_neg (by tauto), if_neg (by tauto)]
  · intro offset whence a hsome hbad
    rw [Seek_eq_target ss offset whence a hsome]
    rcases hbad with hb | hb
    · rw [if_pos hb]
    · rw [if_neg (by omega), if_pos (by omega)]
  · intro offset whence a hsome hlo hhi
    rw [Seek_eq_target ss offset whence a hsome]
    rw [if_neg (by omega), if_neg (by omega)]
  · intro t hit hts htl
    unfold StreamSeeker.Read
    have hcu := catchup_ok src t cap hcap (t - ss.i).toNat ss.i hi0 hit (by omega)
      (le_refl _)
    simp only at hcu ⊢
    rw [hcu]
    dsimp only
    rw [if_neg (by omega), if_neg (by omega)]

/-- Witness for C8: the 26-byte alphabet stream; seek to 5 then read 10 bytes
yields the byte codes of "fghijklmno". -/
theorem C8_StreamSeeker_seek_read_witness :
    StreamSeeker.Seek ⟨0, 0, 26⟩ 5 0 = Except.ok (5, ⟨5, 0, 26⟩)
    ∧ StreamSeeker.Read ((List.range 26).map fun k => 97 + k) ⟨5, 0, 26⟩ 10 =
        Except.ok ([102, 103, 104, 105, 106, 107, 108, 109, 110, 111],
          ⟨15, 15, 26⟩) := by
  have h := C8_StreamSeeker_seek_read ((List.range 26).map fun k => 97 + k)
    ⟨0, 0, 26⟩ 10 (by decide) (by decide) (by decide) (by decide) (by decide)
  refine ⟨h.2.2.1 5 0 5 rfl (by decide) (by decide), ?_⟩
  have h4 := h.2.2.2 5 (by decide) (by decide) (by decide)
  exact h4.trans (congrArg Except.ok (by decide))

/-! ### Paged remote-seek stream (src/http_seeker.go)

The remote resource is the byte list `src`; a ranged GET of `[start, stop)`
against a well-behaved server returns exactly those bytes
(`fillbuffer`). -/

/-- `HTTPSeeker` state (src/http_seeker.go lines 20-27): the buffered page,
logical position, declared size, and the configurable page size (0 selects
the 64 MiB default). -/
structure HTTPSeeker where
  buffer : List Nat
  pos : Int
  size : Int
  PageSize : Nat
deriving Repr, DecidableEq

/-- `NewHTTPSeeker` with an explicit positive length (so no HEAD request is
made); the zero-value buffer is empty and the position 0. -/
def NewHTTPSeeker (length : Int) (pageSize : Nat) : HTTPSeeker :=
  ⟨[], 0, length, pageSize⟩

/-- `fillbuffer` (src/http_seeker.go lines 93-118) against a well-behaved
range-serving origin: the bytes of `src` in `[start, stop)`. -/
def fillbuffer (src : List Nat) (start stop : Int) : List Nat :=
  (src.drop start.toNat).take (stop - start).toNat

/-- `Seek` (src/http_seeker.go lines 47-66): conventional whence handling,
no lower bound, clamp above the declared size, reset the buffered page. -/
def HTTPSeeker.Seek (h : HTTPSeeker) (offset whence : Int) :
    Except StreamErr (Int × HTTPSeeker) :=
  match (if whence = 0 then Except.ok offset
    else if whence = 1 then Except.ok (h.pos + offset)
    else if whence = 2 then Except.ok (h.size + offset)
    else Except.error StreamErr.ErrWhence : Except StreamErr Int) with
  | .error e => .error e
  | .ok a =>
    let a := if a > h.size then h.size else a
    .ok (a, { h with buffer := [], pos := a })

/-- The absolute target an `HTTPSeeker.Seek` call computes before clamping. -/
def httpSeekTarget (h : HTTPSeeker) (offset whence : Int) : Option Int :=
  if whence = 0 then some offset
  else if whence = 1 then some (h.pos + offset)
  else if whence = 2 then some (h.size + offset)
  else none

/-- `Read` (src/http_seeker.go lines 68-91): if the page buffer is empty,
fetch the page `[pos, min (pos + pageSize) size)` (EOF when that range is
empty), then copy from the buffer into the caller's buffer of capacity `cap`,
advancing the position by the bytes copied. -/
def HTTPSeeker.Read (src : List Nat) (h : HTTPSeeker) (cap : Nat) :
    Except StreamErr (List Nat × HTTPSeeker) :=
  match (if h.buffer.length ≤ 0 then
      (if min (h.pos + (if h.PageSize > 0 then (h.PageSize : Int) else 67108864))
            h.size ≤ h.pos then
        Except.error StreamErr.ioEOF
      else
        Except.ok (fillbuffer src h.pos
          (min (h.pos + (if h.PageSize > 0 then (h.PageSize : Int) else 67108864))
            h.size)))
    else Except.ok h.buffer : Except StreamErr (List Nat)) with
  | .error e => .error e
  | .ok buf =>
    let n := min cap buf.length
    .ok (buf.take n, { h with buffer := buf.drop n, pos := h.pos + (n : Int) })

/-- The data invariant tying an `HTTPSeeker` to the remote resource: the
buffered page is exactly the resource's bytes at the logical position. -/
def HTTPInv (src : List Nat) (h : HTTPSeeker) : Prop :=
  0 ≤ h.pos ∧ h.pos + (h.buffer.length : Int) ≤ h.size
  ∧ h.size = (src.length : Int)
  ∧ h.buffer = (src.drop h.pos.toNat).take h.buffer.length

/-- Repeatedly `Read` until an error, concatenating the bytes produced. -/
def drainAll (src : List Nat) (cap : Nat) : HTTPSeeker → Nat → List Nat
  | _, 0 => []
  | h, fuel + 1 =>
    match h.Read src cap with
    | .error _ => []
    | .ok (out, h') => out ++ drainAll src cap h' fuel

/-- The spec's reference behavior: a direct full read of the resource. -/
def specDirectRead (src : List Nat) : List Nat := src

lemma http_read_finish (src : List Nat) (h : HTTPSeeker) (cap : Nat) (buf : List Nat)
    (hread : h.Read src cap = .ok (buf.take (min cap buf.length),
      { h with buffer := buf.drop (min cap buf.length),
               pos := h.pos + ((min cap buf.length : Nat) : Int) }))
    (h0 : 0 ≤ h.pos) (hsz : h.size = (src.length : Int))
    (hbufeq : buf = (src.drop h.pos.toNat).take buf.length)
    (hm1 : 1 ≤ buf.length) (hmle : h.pos + (buf.length : Int) ≤ h.size)
    (hcap : 1 ≤ cap) :
    ∃ (out : List Nat) (h' : HTTPSeeker),
      h.Read src cap = .ok (out, h')
      ∧ 1 ≤ out.length
      ∧ out = (src.drop h.pos.toNat).take out.length
      ∧ h'.pos = h.pos + (out.length : Int)
      ∧ h'.size = h.size ∧ h'.PageSize = h.PageSize
      ∧ HTTPInv src h' := by
  set n : Nat := min cap buf.length with hn
  set p : Nat := h.pos.toNat with hp
  have hpInt : h.pos = (p : Int) := (Int.toNat_of_nonneg h0).symm
  have hn1 : 1 ≤ n := by omega
  have hnm : n ≤ buf.length := by omega
  have hplen : (p : Int) + (buf.length : Int) ≤ (src.length : Int) := by
    rw [← hpInt]; omega
  have hdroplen : (src.drop p).length = src.length - p := src.length_drop p
  have houtlen : (buf.take n).length = n := by
    rw [List.length_take]; omega
  have hout : buf.take n = (src.drop p).take n := by
    conv_lhs => rw [hbufeq]
    rw [List.take_take]
    congr 1
    omega
  have hbuflen' : (buf.drop n).length = buf.length - n := by
    rw [List.length_drop]
  have hbufeq' : buf.drop n = (src.drop (p + n)).take (buf.length - n) := by
    conv_lhs => rw [hbufeq]
    rw [List.drop_take, List.drop_drop]
  refine ⟨buf.take n, _, hread, by omega, ?_, ?_, rfl, rfl, ?_, ?_, hsz, ?_⟩
  · rw [houtlen, hout]
  · rw [houtlen]
  · show 0 ≤ h.pos + ((n : Nat) : Int)
    omega
  · show h.pos + ((n : Nat) : Int) + ((buf.drop n).length : Int) ≤ h.size
    rw [hbuflen']
    omega
  · show buf.drop n =
      (src.drop (h.pos + ((n : Nat) : Int)).toNat).take (buf.drop n).length
    rw [hbuflen', hbufeq']
    congr 2
    omega

lemma http_read_step (src : List Nat) (h : HTTPSeeker) (cap : Nat)
    (hInv : HTTPInv src h) (hcap : 1 ≤ cap)
    (hmore : h.pos < h.size ∨ h.buffer ≠ []) :
    ∃ (out : List Nat) (h' : HTTPSeeker),
      h.Read src cap = .ok (out, h')
      ∧ 1 ≤ out.length
      ∧ out = (src.drop h.pos.toNat).take out.length
      ∧ h'.pos = h.pos + (out.length : Int)
      ∧ h'.size = h.size ∧ h'.PageSize = h.PageSize
      ∧ HTTPInv src h' := by
  obtain ⟨h0, hps, hsz, hbuf⟩ := hInv
  by_cases hempty : h.buffer.length ≤ 0
  · -- empty page buffer: a fresh page is fetched
    have hbufnil : h.buffer = [] := List.eq_nil_of_length_eq_zero (by omega)
    have hposlt : h.pos < h.size := by
      rcases hmore with h1 | h1
      · exact h1
      · exact absurd hbufnil h1
    set bs : Int := (if h.PageSize > 0 then (h.PageSize : Int) else 67108864) with hbs
    have hbs1 : (1 : Int) ≤ bs := by
      rw [hbs]; split <;> omega
    set stop : Int := min (h.pos + bs) h.size with hstopdef
    have hstop : h.pos < stop := by
      rw [hstopdef, lt_min_iff]
      constructor <;> omega
    have hstople : stop ≤ (src.length : Int) := by
      rw [hstopdef, ← hsz]
      exact min_le_right _ _
    set buf : List Nat := fillbuffer src h.pos stop with hbufdef
    have hread : h.Read src cap = .ok (buf.take (min cap buf.length),
        { h with buffer := buf.drop (min cap buf.length),
                 pos := h.pos + ((min cap buf.length : Nat) : Int) }) := by
      unfold HTTPSeeker.Read
      rw [if_pos hempty, if_neg (not_le.mpr hstop)]
    have hfilllen : buf.length = (stop - h.pos).toNat := by
      rw [hbufdef]
      unfold fillbuffer
      rw [List.length_take, List.length_drop]
      omega
    refine http_read_finish src h cap _ hread h0 hsz ?_ ?_ ?_ hcap
    · rw [hfilllen, hbufdef]
      unfold fillbuffer
      rfl
    · rw [hfilllen]
      omega
    · rw [hfilllen]
      omega
  · -- data still buffered: read straight from the buffer
    have hread : h.Read src cap = .ok (h.buffer.take (min cap h.buffer.length),
        { h with buffer := h.buffer.drop (min cap h.buffer.length),
                 pos := h.pos + ((min cap h.buffer.length : Nat) : Int) }) := by
      unfold HTTPSeeker.Read
      rw [if_neg hempty]
    exact http_read_finish src h cap h.buffer hread h0 hsz hbuf (by omega) hps hcap

lemma http_read_eof (src : List Nat) (h : HTTPSeeker) (cap : Nat)
    (hpos : h.pos = h.size) (hb : h.buffer = []) :
    h.Read src cap = .error .ioEOF := by
  unfold HTTPSeeker.Read
  rw [if_pos (by rw [hb]; simp)]
  rw [if_pos (by rw [hpos]; exact min_le_right _ _)]

lemma drainAll_eq (src : List Nat) (cap : Nat) (hcap : 1 ≤ cap) :
    ∀ (fuel : Nat) (h : HTTPSeeker), HTTPInv src h →
      (h.size - h.pos).toNat + 1 ≤ fuel →
      drainAll src cap h fuel = src.drop h.pos.toNat := by
  intro fuel
  induction fuel with
  | zero => intro h _ hf; omega
  | succ fuel ih =>
    intro h hInv hf
    by_cases hend : h.pos = h.size ∧ h.buffer = []
    · unfold drainAll
      rw [http_read_eof src h cap hend.1 hend.2]
      obtain ⟨h0, hps, hsz, hbuf⟩ := hInv
      have hp : h.pos.toNat = src.length := by omega
      rw [hp, List.drop_length]
    · push_neg at hend
      have hmore : h.pos < h.size ∨ h.buffer ≠ [] := by
        obtain ⟨h0, hps, hsz, hbuf⟩ := hInv
        by_cases hb : h.buffer = []
        · left
          have hlen0 : (h.buffer.length : Int) = 0 := by rw [hb]; rfl
          by_cases heq : h.pos = h.size
          · exact absurd hb (hend heq)
          · omega
        · right; exact hb
      obtain ⟨out, h', hread, hlen1, hout, hpos', hsize', hpage', hInv'⟩ :=
        http_read_step src h cap hInv hcap hmore
      unfold drainAll
      rw [hread]
      dsimp only
      have hple : h'.pos + (h'.buffer.length : Int) ≤ h'.size := hInv'.2.1
      have hfuel' : (h'.size - h'.pos).toNat + 1 ≤ fuel := by
        rw [hsize'] at hple ⊢
        rw [hpos'] at hple ⊢
        omega
      rw [ih h' hInv' hfuel']
      obtain ⟨h0, hps, hsz, hbuf⟩ := hInv
      set n : Nat := out.length with hn
      have hpn : h'.pos.toNat = h.pos.toNat + n := by
        rw [hpos']
        omega
      rw [hpn, hout]
      exact List.drop_take_append_drop src h.pos.toNat n

lemma HTTPSeek_eq_target (h : HTTPSeeker) (offset whence a : Int)
    (hsome : httpSeekTarget h offset whence = some a) :
    h.Seek offset whence = .ok ((if a > h.size then h.size else a),
      { h with buffer := [], pos := (if a > h.size then h.size else a) }) := by
  unfold httpSeekTarget at hsome
  unfold HTTPSeeker.Seek
  by_cases h0 : whence = 0
  · rw [if_pos h0] at hsome
    rw [if_pos h0]
    injection hsome with hs
    subst hs
    rfl
  · rw [if_neg h0] at hsome
    rw [if_neg h0]
    by_cases h1 : whence = 1
    · rw [if_pos h1] at hsome
      rw [if_pos h1]
      injection hsome with hs
      subst hs
      rfl
    · rw [if_neg h1] at hsome
      rw [if_neg h1]
      by_cases h2 : whence = 2
      · rw [if_pos h2] at hsome
        rw [if_pos h2]
        injection hsome with hs
        subst hs
        rfl
      · rw [if_neg h2] at hsome
        exact absurd hsome (by simp)

/-- C9: the paged `HTTPSeeker` refines a direct read of the declared-length
resource.  Seeks use the conventional whence codes with no lower bound, clamp
targets above the declared size to it, and always discard the buffered page;
reading with the position at the declared size and the buffer exhausted gives
end-of-stream; every successful read returns exactly the resource's bytes at
the current position; and draining the seeker — with any page size and any
positive caller buffer — reproduces byte-for-byte the direct full read
(`specDirectRead`), page boundaries notwithstanding. -/
theorem C9_HTTPSeeker_refinement (src : List Nat) (h : HTTPSeeker) (cap : Nat)
    (hInv : HTTPInv src h) (hcap : 1 ≤ cap) :
    (∀ offset whence, ¬ (whence = 0 ∨ whence = 1 ∨ whence = 2) →
        h.Seek offset whence = .error .ErrWhence)
    ∧ (∀ offset whence a, httpSeekTarget h offset whence = some a → a ≤ h.size →
        h.Seek offset whence = .ok (a, { h with buffer := [], pos := a }))
    ∧ (∀ offset whence a, httpSeekTarget h offset whence = some a → a > h.size →
        h.Seek offset whence = .ok (h.size, { h with buffer := [], pos := h.size }))
    ∧ (∀ a : Int, 0 ≤ a → a ≤ h.size → HTTPInv src { h with buffer := [], pos := a })
    ∧ (h.pos = h.size → h.buffer = [] → h.Read src cap = .error .ioEOF)
    ∧ (h.pos < h.size ∨ h.buffer ≠ [] →
        ∃ (out : List Nat) (h' : HTTPSeeker),
          h.Read src cap = .ok (out, h') ∧ 1 ≤ out.length
          ∧ out = (src.drop h.pos.toNat).take out.length
          ∧ h'.pos = h.pos + (out.length : Int) ∧ h'.size = h.size
          ∧ h'.PageSize = h.PageSize ∧ HTTPInv src h')
    ∧ (∀ fuel, (h.size - h.pos).toNat + 1 ≤ fuel →
        drainAll src cap h fuel = (specDirectRead src).drop h.pos.toNat)
    ∧ (∀ (pageSize fuel : Nat), src.length + 1 ≤ fuel →
        drainAll src cap (NewHTTPSeeker (src.length : Int) pageSize) fuel =
          specDirectRead src) := by
  refine ⟨?_, ?_, ?_, ?_, ?_, ?_, ?_, ?_⟩
  · intro offset whence hw
    unfold HTTPSeeker.Seek
    rw [if_neg (by tauto), if_neg (by tauto), if_neg (by tauto)]
  · intro offset whence a hsome hle
    rw [HTTPSeek_eq_target h offset whence a hsome]
    rw [if_neg (by omega)]
  · intro offset whence a hsome hgt
    rw [HTTPSeek_eq_target h offset whence a hsome]
    rw [if_pos hgt]
  · intro a h0a hle
    obtain ⟨h0, hps, hsz, hbuf⟩ := hInv
    exact ⟨h0a, by simpa using hle, hsz, by simp⟩
  · exact http_read_eof src h cap
  · exact http_read_step src h cap hInv hcap
  · exact fun fuel hf => drainAll_eq src cap hcap fuel h hInv hf
  · intro pageSize fuel hf
    have hInv0 : HTTPInv src (NewHTTPSeeker (src.length : Int) pageSize) :=
      ⟨le_refl 0, by simp [NewHTTPSeeker], rfl, by simp [NewHTTPSeeker]⟩
    have := drainAll_eq src cap hcap fuel (NewHTTPSeeker (src.length : Int) pageSize)
      hInv0 (by simp [NewHTTPSeeker]; omega)
    simpa [NewHTTPSeeker, specDirectRead] using this

/-- Witness for C9: a 5-byte resource with page size 2 and a 3-byte caller
buffer: an over-the-end seek clamps to the size, and a full drain reproduces
the resource exactly despite the page boundaries at 2 and 4. -/
theorem C9_HTTPSeeker_refinement_witness :
    HTTPSeeker.Seek ⟨[], 0, 5, 2⟩ 7 0 = Except.ok (5, ⟨[], 5, 5, 2⟩)
    ∧ drainAll [10, 20, 30, 40, 50] 3 (NewHTTPSeeker 5 2) 6 =
        specDirectRead [10, 20, 30, 40, 50] := by
  have hthm := C9_HTTPSeeker_refinement [10, 20, 30, 40, 50] ⟨[], 0, 5, 2⟩ 3
    ⟨by decide, by decide, by decide, by decide⟩ (by decide)
  exact ⟨hthm.2.2.1 7 0 7 rfl (by decide),
    hthm.2.2.2.2.2.2.2 2 6 (by decide)⟩

end Disadis
